import Mathlib

/-! # Verification of the topology-checker rule engine

A shallow embedding of the geometric rule engine of the topology-checker
repository (src/src): the planar intersection kernel, the linestring merging
algorithm, the rule implementations and the TopologyResult value model, with
theorems settling the frozen claims about them.

The source computes over f64 coordinates (geo::Coord of f64). The embedding
uses exact integers: every predicate the embedded code branches on
(orientation sign, point-on-segment, coordinate equality and order) is a
polynomial sign condition that the geo crate evaluates with robust exact
predicates, and all of them are invariant under uniform scaling, so concrete
decimal inputs appear scaled by a power of ten. -/

namespace TopologyChecker

/-- A 2-D coordinate (geo::Coord), embedded with exact integer components. -/
structure Coord where
  x : ℤ
  y : ℤ
deriving DecidableEq, Repr

/-- A line segment, geo::Line. The source's second field is named end, a
reserved word here, so it is called stop. -/
structure Line where
  start : Coord
  stop : Coord
deriving DecidableEq, Repr

/-- A linestring is its coordinate vector (geo::LineString wraps a coordinate
vector). -/
abbrev LineString := List Coord

/-- A polygon: one exterior ring and a list of interior rings
(geo::Polygon). -/
structure Polygon where
  exterior : LineString
  interiors : List LineString
deriving DecidableEq, Repr

/-- Order on integer pairs by first component, for sorting coverage
intervals by their start. -/
def ile (p q : ℤ × ℤ) : Prop := p.1 ≤ q.1

instance : DecidableRel ile := fun p q => by
  unfold ile
  infer_instance

/-- geo::MultiPoint. -/
abbrev MultiPoint := List Coord

/-- geo::MultiLineString. -/
abbrev MultiLineString := List LineString

/-- geo::MultiPolygon. -/
abbrev MultiPolygon := List Polygon

/-- TopologyError (src/src/lib.rs): a per-geometry-kind bucket of error
geometries. -/
inductive TopologyError where
  | point (ps : List Coord)
  | linestring (ls : List LineString)
  | polygon (ps : List Polygon)
  | multipoint (ps : List MultiPoint)
  | multilinestring (ls : List MultiLineString)
  | multipolygon (ps : List MultiPolygon)
deriving DecidableEq, Repr

/-- TopologyResult (src/src/lib.rs). -/
inductive TopologyResult where
  | errors (errs : List TopologyError)
  | valid
deriving DecidableEq, Repr

/-- The panics the embedded library code can raise. A Rust panic aborts the
program (a hard crash); the embedding returns it as the error component of an
Except so that theorems can talk about it. The constructors stand for the
source's panic messages: "Called unwrap_err on a Valid variant.",
"No point errors exist.", "No linestring errors exist.", and so on. -/
inductive RustPanic where
  | unwrapErrOnValid
  | noPointErrors
  | noLinestringErrors
  | noPolygonErrors
  | noMultipointErrors
  | noMultilinestringErrors
  | noMultipolygonErrors
deriving DecidableEq, Repr

/-- Port of TopologyResult::unwrap_err: the error list, or a panic on the
Valid variant. -/
def unwrap_err : TopologyResult → Except RustPanic (List TopologyError)
  | .errors geometry_errors => .ok geometry_errors
  | .valid => .error .unwrapErrOnValid

/-- Kind test matched by unwrap_err_point's find closure. -/
def is_point_error : TopologyError → Bool
  | .point _ => true
  | _ => false

/-- Kind test matched by unwrap_err_linestring's find closure. -/
def is_linestring_error : TopologyError → Bool
  | .linestring _ => true
  | _ => false

/-- Kind test matched by unwrap_err_polygon's find closure. -/
def is_polygon_error : TopologyError → Bool
  | .polygon _ => true
  | _ => false

/-- Kind test matched by unwrap_err_multipoint's find closure. -/
def is_multipoint_error : TopologyError → Bool
  | .multipoint _ => true
  | _ => false

/-- Kind test matched by unwrap_err_multilinestring's find closure. -/
def is_multilinestring_error : TopologyError → Bool
  | .multilinestring _ => true
  | _ => false

/-- Kind test matched by unwrap_err_multipolygon's find closure. -/
def is_multipolygon_error : TopologyError → Bool
  | .multipolygon _ => true
  | _ => false

/-- The shared shape of the six per-kind accessors of TopologyResult
(src/src/lib.rs): unwrap the error list (panicking on Valid), then find the
first error of the matching kind, panicking through expect when none
exists. -/
def find_or_panic (r : TopologyResult) (pred : TopologyError → Bool)
    (msg : RustPanic) : Except RustPanic TopologyError :=
  match unwrap_err r with
  | .error e => .error e
  | .ok errs =>
    match errs.find? pred with
    | some e => .ok e
    | none => .error msg

/-- Port of TopologyResult::unwrap_err_point. -/
def unwrap_err_point (r : TopologyResult) : Except RustPanic TopologyError :=
  find_or_panic r is_point_error .noPointErrors

/-- Port of TopologyResult::unwrap_err_linestring. -/
def unwrap_err_linestring (r : TopologyResult) : Except RustPanic TopologyError :=
  find_or_panic r is_linestring_error .noLinestringErrors

/-- Port of TopologyResult::unwrap_err_polygon. -/
def unwrap_err_polygon (r : TopologyResult) : Except RustPanic TopologyError :=
  find_or_panic r is_polygon_error .noPolygonErrors

/-- Port of TopologyResult::unwrap_err_multipoint. -/
def unwrap_err_multipoint (r : TopologyResult) : Except RustPanic TopologyError :=
  find_or_panic r is_multipoint_error .noMultipointErrors

/-- Port of TopologyResult::unwrap_err_multilinestring. -/
def unwrap_err_multilinestring (r : TopologyResult) : Except RustPanic TopologyError :=
  find_or_panic r is_multilinestring_error .noMultilinestringErrors

/-- Port of TopologyResult::unwrap_err_multipolygon. -/
def unwrap_err_multipolygon (r : TopologyResult) : Except RustPanic TopologyError :=
  find_or_panic r is_multipolygon_error .noMultipolygonErrors

/-- Port of TopologyResult::is_valid. -/
def is_valid : TopologyResult → Bool
  | .valid => true
  | .errors _ => false

/-- All coordinates carried by Point errors of a result (each rule emits at
most one Point bucket, so this is that bucket's list). -/
def err_points : TopologyResult → List Coord
  | .errors errs => errs.foldr (fun e acc =>
      match e with
      | .point ps => ps ++ acc
      | _ => acc) []
  | .valid => []

/-- All linestrings carried by LineString errors of a result. -/
def err_linestrings : TopologyResult → List LineString
  | .errors errs => errs.foldr (fun e acc =>
      match e with
      | .linestring ls => ls ++ acc
      | _ => acc) []
  | .valid => []

/-! ## Geometry primitives -/

/-- Twice the signed area of the triangle a b c; its sign is the robust
orientation predicate geo::kernels::RobustKernel::orient2d (zero iff
collinear). -/
def orient2d (a b c : Coord) : ℤ :=
  (b.x - a.x) * (c.y - a.y) - (b.y - a.y) * (c.x - a.x)

/-- Point-on-segment test, geo::Intersects of Coord for Line: collinear with
the segment and within its bounding box. -/
def on_segment (p : Coord) (a b : Coord) : Bool :=
  orient2d a b p == 0
    && min a.x b.x ≤ p.x && p.x ≤ max a.x b.x
    && min a.y b.y ≤ p.y && p.y ≤ max a.y b.y

/-- Segment-segment intersection, geo::Intersects of Line for Line. Two
closed segments share a point iff they strictly straddle each other or an
endpoint of one lies on the other; this is the predicate the geo crate
implements with robust orientations. -/
def lines_intersect (s1 s2 : Line) : Bool :=
  let o1 := orient2d s1.start s1.stop s2.start
  let o2 := orient2d s1.start s1.stop s2.stop
  let o3 := orient2d s2.start s2.stop s1.start
  let o4 := orient2d s2.start s2.stop s1.stop
  (((o1 < 0 && o2 > 0) || (o1 > 0 && o2 < 0)) && ((o3 < 0 && o4 > 0) || (o3 > 0 && o4 < 0)))
    || (o1 == 0 && on_segment s2.start s1.start s1.stop)
    || (o2 == 0 && on_segment s2.stop s1.start s1.stop)
    || (o3 == 0 && on_segment s1.start s2.start s2.stop)
    || (o4 == 0 && on_segment s1.stop s2.start s2.stop)

/-- The segments of a linestring, LineString::lines_iter (consecutive
coordinate pairs). -/
def lines_iter (ls : LineString) : List Line :=
  (ls.zip ls.tail).map fun p => ⟨p.1, p.2⟩

/-- geo::Intersects of Coord for LineString: the coordinate lies on some
segment. -/
def ls_intersects_coord (ls : LineString) (c : Coord) : Bool :=
  (lines_iter ls).any fun s => on_segment c s.start s.stop

/-- geo::Intersects of LineString for LineString: some pair of segments
intersects. -/
def ls_intersects_ls (a b : LineString) : Bool :=
  (lines_iter a).any fun sa => (lines_iter b).any fun sb => lines_intersect sa sb

/-- First coordinate of a linestring (the source's linestring.0[0] would
panic on an empty vector; the embedding returns the origin, a case no
embedded call reaches). -/
def head_coord (ls : LineString) : Coord := ls.headD ⟨0, 0⟩

/-- Last coordinate of a linestring (linestring.0[len - 1]). -/
def last_coord (ls : LineString) : Coord := ls.getLastD ⟨0, 0⟩

/-- LineString::is_closed: the first coordinate equals the last. -/
def is_closed (ls : LineString) : Bool := ls.head? == ls.getLast?

/-- An axis-aligned bounding rectangle, geo::Rect. -/
structure Rect where
  rmin : Coord
  rmax : Coord
deriving DecidableEq, Repr

/-- geo::Rect::new: normalizes the two corners componentwise. -/
def rect_new (c1 c2 : Coord) : Rect :=
  ⟨⟨min c1.x c2.x, min c1.y c2.y⟩, ⟨max c1.x c2.x, max c1.y c2.y⟩⟩

/-- Line::bounding_rect. -/
def bounding_rect (s : Line) : Rect := rect_new s.start s.stop

/-- geo::Intersects of Rect for Rect: closed interval overlap on both
axes. -/
def rect_intersects (r1 r2 : Rect) : Bool :=
  r1.rmin.x ≤ r2.rmax.x && r2.rmin.x ≤ r1.rmax.x
    && r1.rmin.y ≤ r2.rmax.y && r2.rmin.y ≤ r1.rmax.y

/-- Closed membership of a coordinate in a rectangle, as the collinear branch
of the line intersection algorithm uses it. -/
def rect_contains (r : Rect) (c : Coord) : Bool :=
  r.rmin.x ≤ c.x && c.x ≤ r.rmax.x && r.rmin.y ≤ c.y && c.y ≤ r.rmax.y

/-! ## The line intersection classifier and the sweep kernel -/

/-- geo::algorithm::LineIntersection: either a single point tagged
proper/improper or a collinear overlap segment. -/
inductive LineIntersection where
  | single (point : Coord) (is_proper : Bool)
  | collinear (intersection : Line)
deriving DecidableEq, Repr

/-- Port of geo's collinear_intersection (the all-orientations-zero case of
line_intersection, from JTS): classify the overlap of two collinear segments
by which endpoints fall in which bounding box, in the source's match-arm
order. A single shared endpoint (with the two other endpoints outside) is an
improper point; a positive-length overlap is returned as the actual pair of
overlap endpoints - the contained segment itself, or the one contained
endpoint of each segment - with the source's orientation. -/
def collinear_intersection (p q : Line) : Option LineIntersection :=
  let pB := bounding_rect p
  let qB := bounding_rect q
  let a1 := rect_contains pB q.start
  let a2 := rect_contains pB q.stop
  let a3 := rect_contains qB p.start
  let a4 := rect_contains qB p.stop
  if a1 && a2 then some (.collinear ⟨q.start, q.stop⟩)
  else if a3 && a4 then some (.collinear ⟨p.start, p.stop⟩)
  else if a1 && !a2 && a3 && !a4 && q.start = p.start then some (.single q.start false)
  else if a1 && a3 then some (.collinear ⟨q.start, p.start⟩)
  else if a1 && !a2 && !a3 && a4 && q.start = p.stop then some (.single q.start false)
  else if a1 && a4 then some (.collinear ⟨q.start, p.stop⟩)
  else if !a1 && a2 && a3 && !a4 && q.stop = p.start then some (.single q.stop false)
  else if a2 && a3 then some (.collinear ⟨q.stop, p.start⟩)
  else if !a1 && a2 && !a3 && a4 && q.stop = p.stop then some (.single q.stop false)
  else if a2 && a4 then some (.collinear ⟨q.stop, p.stop⟩)
  else none

/-- The coordinate of a proper crossing. The source computes it in f64
(JTS style, with a fallback to the nearest endpoint when rounding pushes the
point outside a bounding box); with exact arithmetic the crossing of properly
intersecting non-parallel segments is the rational point (nx / d, ny / d)
with d nonzero. The integer embedding carries that point exactly when d
divides nx and ny - the condition crossing_exact below - and every theorem
that speaks about the values of proper crossing points carries that
hypothesis; under it the integer quotients here are the exact crossing (an
exact quotient is independent of the rounding convention of the division). -/
def proper_intersection (p q : Line) : Coord :=
  let x1 := p.start.x; let y1 := p.start.y
  let x2 := p.stop.x; let y2 := p.stop.y
  let x3 := q.start.x; let y3 := q.start.y
  let x4 := q.stop.x; let y4 := q.stop.y
  let d := (x1 - x2) * (y3 - y4) - (y1 - y2) * (x3 - x4)
  let nx := (x1 * y2 - y1 * x2) * (x3 - x4) - (x1 - x2) * (x3 * y4 - y3 * x4)
  let ny := (x1 * y2 - y1 * x2) * (y3 - y4) - (y1 - y2) * (x3 * y4 - y3 * x4)
  ⟨nx / d, ny / d⟩

/-- Whether the crossing of two non-parallel segments is a lattice point: the
crossing determinant divides both numerators, so proper_intersection is the
exact crossing rather than a rounded one. -/
def crossing_exact (p q : Line) : Bool :=
  let x1 := p.start.x; let y1 := p.start.y
  let x2 := p.stop.x; let y2 := p.stop.y
  let x3 := q.start.x; let y3 := q.start.y
  let x4 := q.stop.x; let y4 := q.stop.y
  let d := (x1 - x2) * (y3 - y4) - (y1 - y2) * (x3 - x4)
  let nx := (x1 * y2 - y1 * x2) * (x3 - x4) - (x1 - x2) * (x3 * y4 - y3 * x4)
  let ny := (x1 * y2 - y1 * x2) * (y3 - y4) - (y1 - y2) * (x3 * y4 - y3 * x4)
  !(d == 0) && nx % d == 0 && ny % d == 0

/-- Port of geo::algorithm::line_intersection::line_intersection (from JTS's
robust line intersector): classify the intersection of two segments. None
when disjoint; a collinear overlap when all four orientations vanish;
otherwise a single point, proper iff it lies in the relative interior of both
segments (improper when some orientation vanishes, with the source's
point-selection order). -/
def line_intersection (p q : Line) : Option LineIntersection :=
  if !(rect_intersects (bounding_rect p) (bounding_rect q)) then none
  else
    let p_q1 := orient2d p.start p.stop q.start
    let p_q2 := orient2d p.start p.stop q.stop
    if (p_q1 > 0 && p_q2 > 0) || (p_q1 < 0 && p_q2 < 0) then none
    else
      let q_p1 := orient2d q.start q.stop p.start
      let q_p2 := orient2d q.start q.stop p.stop
      if (q_p1 > 0 && q_p2 > 0) || (q_p1 < 0 && q_p2 < 0) then none
      else if p_q1 == 0 && p_q2 == 0 && q_p1 == 0 && q_p2 == 0 then
        collinear_intersection p q
      else if p_q1 == 0 || p_q2 == 0 || q_p1 == 0 || q_p2 == 0 then
        let pt :=
          if p.start = q.start || p.start = q.stop then p.start
          else if p.stop = q.start || p.stop = q.stop then p.stop
          else if p_q1 == 0 then q.start
          else if p_q2 == 0 then q.stop
          else if q_p1 == 0 then p.start
          else p.stop
        some (.single pt false)
      else
        some (.single (proper_intersection p q) true)

/-- The unordered pairs of a list, in slot order. -/
def all_pairs : List α → List (α × α)
  | [] => []
  | a :: rest => rest.map (fun b => (a, b)) ++ all_pairs rest

/-- Model of geo::sweep::Intersections (a Bentley-Ottmann sweep): it reports,
once per unordered pair of distinct input segments, the pair's nonempty
intersection as classified by line_intersection. -/
def sweep_records (lines : List Line) : List LineIntersection :=
  (all_pairs lines).filterMap fun pq => line_intersection pq.1 pq.2

/-- Whether every pair of segments that the kernel classifies as a proper
crossing has a lattice crossing point. On such inputs the integer embedding
reports exactly the crossing coordinates the program computes (the program's
f64 arithmetic is exact on them in the evaluated range); theorems about the
values of proper crossing points are scoped by this condition because an
integer scalar cannot carry a fractional crossing. -/
def crossings_integral (lines : List Line) : Bool :=
  (all_pairs lines).all fun pq =>
    match line_intersection pq.1 pq.2 with
    | some (.single _ true) => crossing_exact pq.1 pq.2
    | _ => true

/-- The total order on coordinates used by geo::sweep::SweepPoint (x
ascending, ties broken by y ascending), as a Boolean comparator. -/
def coord_le (a b : Coord) : Bool := a.x < b.x || (a.x == b.x && a.y ≤ b.y)

/-- The SweepPoint order as a relation, for the sort of must_not_intersect. -/
def cle (a b : Coord) : Prop := coord_le a b = true

instance : DecidableRel cle := fun a b => by
  unfold cle
  infer_instance

instance : IsTotal Coord cle :=
  ⟨fun a b => by
    unfold cle coord_le
    simp only [Bool.or_eq_true, Bool.and_eq_true, decide_eq_true_eq, beq_iff_eq]
    omega⟩

instance : IsTrans Coord cle :=
  ⟨fun a b c hab hbc => by
    unfold cle coord_le at hab hbc ⊢
    simp only [Bool.or_eq_true, Bool.and_eq_true, decide_eq_true_eq, beq_iff_eq] at hab hbc ⊢
    omega⟩

/-- Insertion into the sorted duplicate-free list that models a BTreeSet of
SweepPoints. -/
def btree_insert (c : Coord) : List Coord → List Coord
  | [] => [c]
  | d :: t =>
    if c = d then d :: t
    else if coord_le c d then c :: d :: t
    else d :: btree_insert c t

/-- Collecting an iterator into a BTreeSet of SweepPoints. -/
def btree_of_list (l : List Coord) : List Coord :=
  l.foldl (fun acc c => btree_insert c acc) []

/-- The Collinear destructuring in the lines map of the intersections helper;
the catch-all arm returns a junk segment and models the source's
unreachable!(), which claim C10 shows is never taken. -/
def collinear_part : LineIntersection → Line
  | .collinear l => l
  | .single _ _ => ⟨⟨0, 0⟩, ⟨0, 0⟩⟩

/-- Whether a record is a collinear overlap: the partition predicate inside
the intersections helper. -/
def is_collinear_record : LineIntersection → Bool
  | .collinear _ => true
  | .single _ _ => false

/-- Port of intersections (src/src/util/geometry.rs): run the sweep over the
segments, split the records into collinear overlaps and single points, and
split the single points into the unique proper and unique improper sets
(BTreeSets, modelled as sorted duplicate-free lists). The partition_map's
catch-all arm, like the lines map's, is the unreachable!() of claim C10. -/
def intersections (lines : List Line) : List Line × (List Coord × List Coord) :=
  let records := sweep_records lines
  let parts := records.partition is_collinear_record
  let lines_out := parts.1.map collinear_part
  let proper := btree_of_list (parts.2.filterMap fun r =>
    match r with
    | .single c true => some c
    | _ => none)
  let improper := btree_of_list (parts.2.filterMap fun r =>
    match r with
    | .single c false => some c
    | _ => none)
  (lines_out, (proper, improper))

/-! ## Linestring helpers of src/src/util/geometry.rs -/

/-- Port of explode_linestrings: all constituent segments of the linestrings.
The source collects from a parallel bridge, so its segment order is
unspecified; every claim about the kernel's output is order-insensitive. -/
def explode_linestrings (lss : List LineString) : List Line :=
  lss.flatMap lines_iter

/-- Port of linestring_inner_points: the coordinates of each linestring other
than its first and last. The source slices 1..len-1 and panics on a
linestring with fewer than two coordinates; the theorems assume at least
two. -/
def linestring_inner_points (lss : List LineString) : List Coord :=
  lss.flatMap fun ls => (ls.drop 1).dropLast

/-- Port of linestring_endpoints: the first and last coordinate of each
linestring. The source unwraps iterator ends and panics on a linestring with
fewer than two coordinates; the theorems assume at least two. -/
def linestring_endpoints (lss : List LineString) : List Coord :=
  lss.flatMap fun ls => [head_coord ls, last_coord ls]

/-- Port of itertools' dedup_with_count as must_not_intersect uses it: group
consecutive equal elements, keeping each run's length. -/
def dedup_with_count : List Coord → List (ℕ × Coord)
  | [] => []
  | a :: rest =>
    match dedup_with_count rest with
    | (n, b) :: t => if a = b then (n + 1, b) :: t else (1, a) :: (n, b) :: t
    | [] => [(1, a)]

/-! ## Rules -/

/-- Port of must_not_intersect (src/src/rule/must_not_intersect.rs): sort the
inner points (the source's stable vector sort over the SweepPoint total order
produces the same list as this insertion sort), keep the values occurring at
least twice (the subset), run the kernel, keep the improper points found in
the subset (the source binary searches the sorted subset vector, which is
membership), extend with all proper points, and report the collinear
overlaps as two-point linestrings. -/
def must_not_intersect (lss : List LineString) : TopologyResult :=
  let endpoints := List.insertionSort cle (linestring_inner_points lss)
  let subset := (dedup_with_count endpoints).filterMap fun sc =>
    if 1 < sc.1 then some sc.2 else none
  let lines := explode_linestrings lss
  let res := intersections lines
  let points := (res.2.1).foldl (fun acc p => btree_insert p acc)
    (btree_of_list ((res.2.2).filter fun p => subset.contains p))
  let linestrings := res.1.map fun l => [l.start, l.stop]
  let geometry_errors :=
    (if points.isEmpty then [] else [TopologyError.point points])
      ++ (if linestrings.isEmpty then [] else [TopologyError.linestring linestrings])
  if geometry_errors.isEmpty then .valid else .errors geometry_errors

/-- Port of must_not_have_dangles (src/src/rule/must_not_have_dangles.rs):
report the linestring endpoints that are not improper intersections of the
exploded segments. -/
def must_not_have_dangles (lss : List LineString) : TopologyResult :=
  let endpoints := linestring_endpoints lss
  let improper := (intersections (explode_linestrings lss)).2.2
  let geometry_errors := endpoints.filter fun p => !(improper.contains p)
  if geometry_errors.isEmpty then .valid
  else .errors [.point geometry_errors]

/-- Port of the points impl of must_not_overlap
(src/src/rule/must_not_overlap.rs): the R-tree candidate pairs with the
address bookkeeping visit each unordered pair of distinct slots exactly once
(modelled in slot order; the source's order is unspecified and every claim is
order-insensitive); each pair of equal points contributes its coordinate
once. Point intersection is coordinate equality. -/
def must_not_overlap_points (points : List Coord) : TopologyResult :=
  let geometry_errors := (all_pairs points).filterMap fun pq =>
    if pq.1 = pq.2 then some pq.1 else none
  if geometry_errors.isEmpty then .valid
  else .errors [.point geometry_errors]

/-- Whether the horizontal ray from p to the right crosses the edge s, in the
division-free form of the even-odd crossing test (edges are half-open in y so
a vertex is counted once). -/
def ray_crosses (p : Coord) (s : Line) : Bool :=
  if s.start.y ≤ p.y then
    p.y < s.stop.y && orient2d s.start s.stop p > 0
  else
    s.stop.y ≤ p.y && orient2d s.start s.stop p < 0

/-- Even-odd membership of a point in the open region bounded by a closed
ring (points on the boundary are settled separately). -/
def point_in_ring (ring : LineString) (p : Coord) : Bool :=
  ((lines_iter ring).countP fun s => ray_crosses p s) % 2 == 1

/-- geo::Contains of Point for Polygon: the coordinate position is Inside,
i.e. strictly interior to the exterior ring, on no ring, and neither inside
nor on any hole. -/
def poly_contains (poly : Polygon) (p : Coord) : Bool :=
  point_in_ring poly.exterior p && !(ls_intersects_coord poly.exterior p)
    && poly.interiors.all fun h => !(point_in_ring h p) && !(ls_intersects_coord h p)

/-- Port of the points impl of must_be_inside
(src/src/rule/must_be_inside.rs): collect the points some polygon contains
(the R-tree candidate filter loses nothing, since a containing pair's
envelopes intersect), then report, by value, every input point not in that
collection. -/
def must_be_inside (points : List Coord) (other : List Polygon) : TopologyResult :=
  let inside_points := points.flatMap fun p =>
    other.filterMap fun poly => if poly_contains poly p then some p else none
  let outside_points := points.filter fun p => !(inside_points.contains p)
  if outside_points.isEmpty then .valid
  else .errors [.point outside_points]

/-- geo::Contains of Coord for Line: interior membership (an endpoint of a
proper segment is not contained; a degenerate segment contains only its
point). -/
def line_contains_coord (s : Line) (c : Coord) : Bool :=
  if s.start = s.stop then s.start = c
  else !(c == s.start) && !(c == s.stop) && on_segment c s.start s.stop

/-- geo::Contains of Line for Line: both endpoints of the other segment lie
on this one (a degenerate other must lie in the interior). In particular a
segment always contains itself. -/
def line_contains_line (s other : Line) : Bool :=
  if other.start = other.stop then line_contains_coord s other.start
  else on_segment other.start s.start s.stop && on_segment other.stop s.start s.stop

/-- Port of must_not_have_gaps (src/src/rule/must_not_have_gaps.rs): explode
every interior and exterior ring into segments and report, as a two-point
linestring, each segment in which fewer than two indexed segments are
contained. The source's counter exits early at two, which is the same test,
and its envelope query loses nothing since a contained segment's envelope
intersects the container's. The reported order is the source's tree-iteration
order, unspecified; the embedding keeps segment order and the claim is
order-insensitive. -/
def must_not_have_gaps (polys : List Polygon) : TopologyResult :=
  let boundaries : List LineString := polys.flatMap fun polygon =>
    polygon.interiors ++ [polygon.exterior]
  let lines := explode_linestrings boundaries
  let results : List LineString := lines.filterMap fun l =>
    if 2 ≤ lines.countP fun other => line_contains_line l other then none
    else some [l.start, l.stop]
  if results.isEmpty then .valid
  else .errors [.linestring results]

/-! ## The linestring merging algorithm (src/src/algorithm/merge_lines.rs) -/

/-- Whether every point of segment s lies in the union of the segments of ls,
decided by covering the parameter interval of s with the collinear overlaps
of the segments of ls. Parameters are scaled by the squared length of s to
stay in ℤ. -/
def segment_covered (s : Line) (ls : LineString) : Bool :=
  let d : Coord := ⟨s.stop.x - s.start.x, s.stop.y - s.start.y⟩
  if s.start = s.stop then ls_intersects_coord ls s.start
  else
    let len2 : ℤ := d.x * d.x + d.y * d.y
    let ivs : List (ℤ × ℤ) := (lines_iter ls).filterMap fun a =>
      if orient2d s.start s.stop a.start == 0 && orient2d s.start s.stop a.stop == 0 then
        let tu : ℤ := (a.start.x - s.start.x) * d.x + (a.start.y - s.start.y) * d.y
        let tv : ℤ := (a.stop.x - s.start.x) * d.x + (a.stop.y - s.start.y) * d.y
        some (min tu tv, max tu tv)
      else none
    let sorted := List.insertionSort ile ivs
    let reach := sorted.foldl (fun r pq => if pq.1 ≤ r then max r pq.2 else r) 0
    len2 ≤ reach

/-- geo::Contains of LineString for LineString, used as
result.contains(linestring) in compute_linestring: DE-9IM containment, which
for a non-degenerate contained linestring amounts to its point set lying
inside the container's point set; modelled as coverage of every segment of b
by the segments of a. -/
def ls_contains (a b : LineString) : Bool :=
  (lines_iter b).all fun s => segment_covered s a

/-- Port of merge_two: merge two linestrings that touch at an endpoint,
reversing as needed and dropping the duplicated coordinate. Coordinate
intersects means coordinate equality. -/
def merge_two (a b : LineString) : Option LineString :=
  if head_coord a = head_coord b then
    some (a.reverse ++ b.drop 1)
  else if last_coord a = head_coord b then
    some (a ++ b.drop 1)
  else if last_coord a = last_coord b then
    some (a ++ (b.reverse.drop 1))
  else if head_coord a = last_coord b then
    some (b ++ a.drop 1)
  else
    none

/-- Port of rotate_start_point: rotate a closed linestring so that it starts
at the first of its coordinates equal to at. The source scans an endlessly
repeated coordinate cycle; when at occurs at index i the scan returns that
coordinate followed by the next coords-count entries of the cycle (so the
ring's old closing duplicate survives inside the rotated ring). When at does
not occur the source loops forever; the embedding returns the linestring
unchanged, a case no embedded call reaches. -/
def rotate_start_point (ls : LineString) (at_ : Coord) : LineString :=
  match ls.findIdx? (fun c => c = at_) with
  | some i => at_ :: (ls.drop (i + 1) ++ ls.take (i + 1))
  | none => ls

/-- Port of intersected_lines: the present linestrings of the working set
that intersect the given linestring, with their slot indices. The source also
excludes the given linestring by address; every caller passes a working set
whose own slot was taken out, so that test excludes nothing further. The
source unzips from a parallel bridge; the embedding keeps slot order. -/
def intersected_lines (linestrings : List (Option LineString))
    (linestring : LineString) : List (ℕ × LineString) :=
  linestrings.enum.filterMap fun oi =>
    match oi.2 with
    | some other =>
      if ls_intersects_ls other linestring then some (oi.1, other) else none
    | none => none

/-- The rotation-target search inside compute_linestring: the first endpoint
of another present linestring (one the closed result does not contain, and
not the linestring just merged, compared by slot) that equals a coordinate of
the result; per candidate the start endpoint is tried before the end. -/
def rotation_target (linestrings : List (Option LineString))
    (result : LineString) (otherIdx : ℕ) : Option Coord :=
  linestrings.enum.findSome? fun oi =>
    match oi.2 with
    | some x =>
      if ls_contains result x || oi.1 == otherIdx then none
      else
        result.findSome? fun c =>
          if head_coord x = c then some (head_coord x)
          else if last_coord x = c then some (last_coord x)
          else none
    | none => none

/-- The loop of compute_linestring over the intersected lines, carrying the
accumulated merge result and the slot indices to clear. A member is eligible
when it touches a uniquely-touched endpoint of the original linestring; a
failed merge still sets the accumulator (to the unchanged linestring), and a
closed accumulator is rotated to the rotation target when one exists. -/
def compute_fold (linestrings : List (Option LineString))
    (linestring : LineString) (spc epc : ℕ) :
    List (ℕ × LineString) → Option LineString → List ℕ →
    Option LineString × List ℕ
  | [], result, toRemove => (result, toRemove)
  | (index, other) :: rest, result, toRemove =>
    if (spc == 1 && ls_intersects_coord other (head_coord linestring))
        || (epc == 1 && ls_intersects_coord other (last_coord linestring)) then
      let merged : Option LineString × List ℕ :=
        match result with
        | none =>
          match merge_two linestring other with
          | some m => (some m, toRemove ++ [index])
          | none => (some linestring, toRemove)
        | some r =>
          match merge_two r other with
          | some m => (some m, toRemove ++ [index])
          | none => (some r, toRemove)
      let rotated : Option LineString :=
        match merged.1 with
        | some r =>
          if is_closed r then
            match rotation_target linestrings r index with
            | some c => some (rotate_start_point r c)
            | none => some r
          else some r
        | none => none
      compute_fold linestrings linestring spc epc rest rotated merged.2
    else
      compute_fold linestrings linestring spc epc rest result toRemove

/-- Port of compute_linestring: count the intersected members touching the
start and end points, then fold the merge attempt over the intersected
members in order. -/
def compute_linestring (linestrings : List (Option LineString))
    (linestring : LineString) : Option LineString × List ℕ :=
  let intersected := intersected_lines linestrings linestring
  let start_point_count :=
    (intersected.filter fun p => ls_intersects_coord p.2 (head_coord linestring)).length
  let end_point_count :=
    (intersected.filter fun p => ls_intersects_coord p.2 (last_coord linestring)).length
  compute_fold linestrings linestring start_point_count end_point_count intersected none []

/-- One slot step of a pass of merge_linestrings: take the slot's linestring
out, compute its merge against the remaining working set, write the result
back (the original when nothing was computed) and clear the consumed
slots. -/
def process_slot (slots : List (Option LineString)) (i : ℕ) :
    List (Option LineString) :=
  match slots.get? i with
  | some (some ls) =>
    match compute_linestring (slots.set i none) ls with
    | (some newLs, toRemove) =>
      toRemove.foldl (fun acc idx => acc.set idx none)
        ((slots.set i none).set i (some newLs))
    | (none, _) => (slots.set i none).set i (some ls)
  | _ => slots

/-- One full pass of the outer loop of merge_linestrings over all slots. -/
def merge_pass (slots : List (Option LineString)) : List (Option LineString) :=
  (List.range slots.length).foldl process_slot slots

/-- The number of present (non-None) slots, the source's count. -/
def count_some (slots : List (Option LineString)) : ℕ :=
  slots.countP fun o => o.isSome

/-- The outer loop of merge_linestrings: run passes until the present-slot
count of a pass equals that of the previous pass (prev_count starts at 0, as
in the source). The source loops without bound; the embedding carries fuel,
and claim C9's theorem proves that length + 2 passes always reach the fixed
point, so merge_linestrings below never hits the fuel bound. -/
def merge_loop : ℕ → ℕ → List (Option LineString) → Option (List LineString)
  | 0, _, _ => none
  | fuel + 1, prev_count, slots =>
    let slots1 := merge_pass slots
    let count := count_some slots1
    if prev_count == count then some (slots1.filterMap id)
    else merge_loop fuel count slots1

/-- Port of merge_linestrings (src/src/algorithm/merge_lines.rs). -/
def merge_linestrings (lines : List LineString) : List LineString :=
  (merge_loop (lines.length + 2) 0 (lines.map some)).getD []

/-! ## Concrete inputs used by witnesses and counterexamples -/

/-- The spec's scenario S1 (three touching segments with two dangles), with
the decimal coordinates scaled by 10^6 to integers: the predicates the rule
evaluates are scale-invariant, and on these literals the f64 program decides
them identically. -/
def dangle_scenario : List LineString :=
  [[⟨-21951560, 64144600⟩, ⟨-21951000, 64144790⟩],
   [⟨-21951000, 64144790⟩, ⟨-21950440, 64145270⟩],
   [⟨-21950440, 64145270⟩, ⟨-21951445, 64145508⟩]]

/-- Two crossing segments (a proper intersection at (1,1)), the witness input
of claim C1. -/
def crossing_demo : List LineString :=
  [[⟨0, 0⟩, ⟨2, 2⟩], [⟨0, 2⟩, ⟨2, 0⟩]]

/-- The idempotence counterexample of claim C5: a square ring whose start
coordinate is interiorly touched by one merged chain, plus a short segment
whose endpoint lies on another ring vertex. The first call's final pass only
rotates the ring (the present-slot count is unchanged, so the fixed-point
test stops), and a second call then merges the short segment into the rotated
ring. -/
def idem_cex_input : List LineString :=
  [[⟨2, 0⟩, ⟨3, -1⟩],
   [⟨0, 0⟩, ⟨2, 0⟩, ⟨2, 2⟩, ⟨0, 2⟩, ⟨0, 0⟩],
   [⟨-3, -1⟩, ⟨0, 0⟩, ⟨-3, -2⟩],
   [⟨-3, -2⟩, ⟨0, 0⟩, ⟨-3, -3⟩]]


/-! ## Helper lemmas -/

theorem err_points_if_empty (l : List Coord) :
    err_points (if l.isEmpty then TopologyResult.valid
      else .errors [.point l]) = l := by
  by_cases h : l.isEmpty
  · rw [List.isEmpty_iff] at h
    simp [h, err_points]
  · simp [h, err_points]

theorem err_linestrings_if_empty (l : List LineString) :
    err_linestrings (if l.isEmpty then TopologyResult.valid
      else .errors [.linestring l]) = l := by
  by_cases h : l.isEmpty
  · rw [List.isEmpty_iff] at h
    simp [h, err_linestrings]
  · simp [h, err_linestrings]

theorem is_valid_if_empty_point (l : List Coord) :
    is_valid (if l.isEmpty then TopologyResult.valid
      else .errors [.point l]) = true ↔ l = [] := by
  by_cases h : l.isEmpty
  · rw [List.isEmpty_iff] at h
    simp [h, is_valid]
  · have h' : l ≠ [] := by
      intro hnil
      rw [hnil] at h
      simp at h
    simp [h, is_valid, h']

theorem is_valid_if_empty_linestring (l : List LineString) :
    is_valid (if l.isEmpty then TopologyResult.valid
      else .errors [.linestring l]) = true ↔ l = [] := by
  by_cases h : l.isEmpty
  · rw [List.isEmpty_iff] at h
    simp [h, is_valid]
  · have h' : l ≠ [] := by
      intro hnil
      rw [hnil] at h
      simp at h
    simp [h, is_valid, h']

theorem find_or_panic_ok_iff (errs : List TopologyError) (pred : TopologyError → Bool)
    (msg : RustPanic) (e : TopologyError) :
    find_or_panic (.errors errs) pred msg = .ok e ↔ errs.find? pred = some e := by
  unfold find_or_panic unwrap_err
  cases h : errs.find? pred
  · simp [h]
  · simp [h]

theorem find_or_panic_error_iff (errs : List TopologyError) (pred : TopologyError → Bool)
    (msg : RustPanic) :
    find_or_panic (.errors errs) pred msg = .error msg ↔ errs.find? pred = none := by
  unfold find_or_panic unwrap_err
  cases h : errs.find? pred
  · simp [h]
  · simp [h]

theorem mem_all_pairs_dup {l : List Coord} {p : Coord} :
    (∃ pq ∈ all_pairs l, pq.1 = p ∧ pq.2 = p) ↔ 2 ≤ l.count p := by
  induction l with
  | nil => simp [all_pairs]
  | cons a rest ih =>
    constructor
    · rintro ⟨pq, hmem, h1, h2⟩
      rw [all_pairs, List.mem_append] at hmem
      rcases hmem with hmap | htail
      · rw [List.mem_map] at hmap
        obtain ⟨b, hb, hpq⟩ := hmap
        have hap : a = p := by rw [← hpq] at h1; exact h1
        have hbp : b = p := by rw [← hpq] at h2; exact h2
        have hcount : 0 < rest.count p := List.count_pos_iff.mpr (hbp ▸ hb)
        rw [hap, List.count_cons_self]
        omega
      · have h2le := ih.mp ⟨pq, htail, h1, h2⟩
        rw [List.count_cons]
        exact le_trans h2le (Nat.le_add_right _ _)
    · intro hcount
      by_cases hap : a = p
      · subst hap
        rw [List.count_cons_self] at hcount
        have hmem : a ∈ rest := List.count_pos_iff.mp (by omega)
        refine ⟨(a, a), ?_, rfl, rfl⟩
        rw [all_pairs, List.mem_append]
        exact Or.inl (List.mem_map.mpr ⟨a, hmem, rfl⟩)
      · have hne : p ≠ a := fun h => hap h.symm
        rw [List.count_cons_of_ne hne] at hcount
        obtain ⟨pq, htail, hq1, hq2⟩ := ih.mpr hcount
        refine ⟨pq, ?_, hq1, hq2⟩
        rw [all_pairs, List.mem_append]
        exact Or.inr htail

theorem dangle_scenario_wf : ∀ ls ∈ dangle_scenario, 2 ≤ ls.length := by
  decide

/-! ## Claim theorems -/

/-- Claim C10: in the intersections helper, both unreachable!() branches are
dead code: after partitioning the sweep records on being Collinear, every
record of the first partition is a Collinear intersection (so the Collinear
destructuring in the lines map always matches) and every record of the second
is a SinglePoint intersection (so the catch-all arm of the points
partition_map is never reached). -/
theorem claim_C10 : ∀ lines : List Line,
    (∀ r ∈ ((sweep_records lines).partition is_collinear_record).1,
      ∃ seg, r = LineIntersection.collinear seg)
    ∧ (∀ r ∈ ((sweep_records lines).partition is_collinear_record).2,
      ∃ c pr, r = LineIntersection.single c pr) := by
  intro lines
  rw [List.partition_eq_filter_filter]
  constructor
  · intro r hr
    have h := List.of_mem_filter hr
    cases r with
    | collinear l => exact ⟨l, rfl⟩
    | single c pr => simp [is_collinear_record] at h
  · intro r hr
    have h := List.of_mem_filter hr
    cases r with
    | collinear l => simp [is_collinear_record] at h
    | single c pr => exact ⟨c, pr, rfl⟩

/-- Claim C4, amended: on the Errors variant each per-kind accessor returns
ok of the first TopologyError of the matching kind (the head of find? on the
error sequence), and when no error of that kind exists it fails with the
panic of its expect call - a hard crash, not a recoverable error (see the
counterexample claim_C4_cex). -/
theorem claim_C4 : ∀ errs : List TopologyError,
    (∀ e, unwrap_err_point (.errors errs) = .ok e ↔
      errs.find? is_point_error = some e)
    ∧ (unwrap_err_point (.errors errs) = .error .noPointErrors ↔
      errs.find? is_point_error = none)
    ∧ (∀ e, unwrap_err_linestring (.errors errs) = .ok e ↔
      errs.find? is_linestring_error = some e)
    ∧ (unwrap_err_linestring (.errors errs) = .error .noLinestringErrors ↔
      errs.find? is_linestring_error = none)
    ∧ (∀ e, unwrap_err_polygon (.errors errs) = .ok e ↔
      errs.find? is_polygon_error = some e)
    ∧ (unwrap_err_polygon (.errors errs) = .error .noPolygonErrors ↔
      errs.find? is_polygon_error = none)
    ∧ (∀ e, unwrap_err_multipoint (.errors errs) = .ok e ↔
      errs.find? is_multipoint_error = some e)
    ∧ (unwrap_err_multipoint (.errors errs) = .error .noMultipointErrors ↔
      errs.find? is_multipoint_error = none)
    ∧ (∀ e, unwrap_err_multilinestring (.errors errs) = .ok e ↔
      errs.find? is_multilinestring_error = some e)
    ∧ (unwrap_err_multilinestring (.errors errs) = .error .noMultilinestringErrors ↔
      errs.find? is_multilinestring_error = none)
    ∧ (∀ e, unwrap_err_multipolygon (.errors errs) = .ok e ↔
      errs.find? is_multipolygon_error = some e)
    ∧ (unwrap_err_multipolygon (.errors errs) = .error .noMultipolygonErrors ↔
      errs.find? is_multipolygon_error = none) := by
  intro errs
  refine ⟨fun e => ?_, ?_, fun e => ?_, ?_, fun e => ?_, ?_, fun e => ?_, ?_,
    fun e => ?_, ?_, fun e => ?_, ?_⟩
  all_goals
    first
    | exact find_or_panic_ok_iff errs _ _ e
    | exact find_or_panic_error_iff errs _ _

/-- Claim C4, counterexample: on an Errors value holding only a LineString
error, unwrap_err_point does not fail recoverably; it hits the expect whose
message is "No point errors exist.", i.e. a Rust panic, which aborts the
process (RustPanic is the embedding of that abort). -/
theorem claim_C4_cex :
    unwrap_err_point (TopologyResult.errors
        [TopologyError.linestring [[⟨0, 0⟩, ⟨1, 1⟩]]])
      = Except.error RustPanic.noPointErrors := by rfl

/-- Claim C3, amended: must_not_overlap on points reports, for each unordered
pair of distinct input slots holding equal coordinates, that coordinate once
(so a coordinate occurring k times appears k(k-1)/2 times, not at most once -
see claim_C3_cex); as a set, the reported coordinates are exactly those
occurring at least twice among the inputs, and the result is Valid iff no
coordinate occurs twice. -/
theorem claim_C3 : ∀ pts : List Coord,
    (∀ p, p ∈ err_points (must_not_overlap_points pts) ↔ 2 ≤ pts.count p)
    ∧ (∀ p, (err_points (must_not_overlap_points pts)).count p
        = (all_pairs pts).countP fun pq => pq.1 == p && pq.2 == p)
    ∧ (is_valid (must_not_overlap_points pts) = true ↔ ∀ p, pts.count p ≤ 1) := by
  intro pts
  have hext : err_points (must_not_overlap_points pts)
      = (all_pairs pts).filterMap fun pq => if pq.1 = pq.2 then some pq.1 else none := by
    unfold must_not_overlap_points
    exact err_points_if_empty _
  have hmem : ∀ p, p ∈ err_points (must_not_overlap_points pts) ↔ 2 ≤ pts.count p := by
    intro p
    rw [hext, List.mem_filterMap]
    rw [← mem_all_pairs_dup]
    constructor
    · rintro ⟨pq, hmem, hval⟩
      by_cases h : pq.1 = pq.2
      · simp [h] at hval
        exact ⟨pq, hmem, hval ▸ h ▸ rfl, hval ▸ rfl⟩
      · simp [h] at hval
    · rintro ⟨pq, hmem, h1, h2⟩
      exact ⟨pq, hmem, by simp [h1, h2, h1.trans h2.symm]⟩
  refine ⟨hmem, fun p => ?_, ?_⟩
  · rw [hext, List.count_filterMap]
    apply List.countP_congr
    intro pq _
    by_cases h : pq.1 = pq.2 <;> by_cases h1 : pq.1 = p
    · have h2 : pq.2 = p := h ▸ h1
      simp [h, h1, h2]
    · have h2 : ¬ pq.2 = p := fun hh => h1 (h.symm ▸ hh)
      simp [h, h1, h2]
    · have h2 : ¬ pq.2 = p := fun hh => h (h1.trans hh.symm)
      simp [h, h1, h2]
      exact fun hh => h2 hh.symm
    · simp [h, h1]
  · have hval : is_valid (must_not_overlap_points pts) = true ↔
        err_points (must_not_overlap_points pts) = [] := by
      unfold must_not_overlap_points
      rw [err_points_if_empty]
      exact is_valid_if_empty_point _
    rw [hval]
    rw [List.eq_nil_iff_forall_not_mem]
    constructor
    · intro h p
      have := h p
      rw [hmem p] at this
      omega
    · intro h p
      rw [hmem p]
      have := h p
      omega

/-- Claim C3, counterexample: on three equal input points the reported
coordinate list holds the coordinate three times (one entry per unordered
pair of duplicates), refuting that each overlapping coordinate appears at
most once. -/
theorem claim_C3_cex :
    (err_points (must_not_overlap_points [⟨0, 0⟩, ⟨0, 0⟩, ⟨0, 0⟩])).count ⟨0, 0⟩ = 3 := by
  decide

/-- Claim C6: on the literal four-linestring input of scenario S3, with the
first three segments chaining at (2,2) and (3,3) and the last disjoint,
merge_linestrings returns exactly the merged chain and the untouched disjoint
segment (the equality of lists in the computed slot order in particular gives
the set equality the claim states). -/
theorem claim_C6 :
    merge_linestrings [[⟨1, 1⟩, ⟨2, 2⟩], [⟨2, 2⟩, ⟨3, 3⟩], [⟨3, 3⟩, ⟨4, 4⟩],
        [⟨7, 7⟩, ⟨8, 8⟩]]
      = [[⟨1, 1⟩, ⟨2, 2⟩, ⟨3, 3⟩, ⟨4, 4⟩], [⟨7, 7⟩, ⟨8, 8⟩]] := by
  decide

/-- Claim C7: must_be_inside on points reports an input point among its Point
errors iff no polygon of the list contains it (containment being the strict
interior predicate of the geo crate the source calls), and the result is
Valid iff every input point is contained in some polygon. -/
theorem claim_C7 : ∀ (points : List Coord) (polys : List Polygon),
    (∀ g, g ∈ err_points (must_be_inside points polys) ↔
      g ∈ points ∧ ∀ poly ∈ polys, poly_contains poly g = false)
    ∧ (is_valid (must_be_inside points polys) = true ↔
      ∀ g ∈ points, ∃ poly ∈ polys, poly_contains poly g = true) := by
  intro points polys
  have hinside : ∀ g : Coord,
      (g ∈ points.flatMap fun p =>
        polys.filterMap fun poly => if poly_contains poly p then some p else none) ↔
      (g ∈ points ∧ ∃ poly ∈ polys, poly_contains poly g = true) := by
    intro g
    rw [List.mem_flatMap]
    constructor
    · rintro ⟨p, hp, hmem⟩
      rw [List.mem_filterMap] at hmem
      obtain ⟨poly, hpoly, hval⟩ := hmem
      by_cases h : poly_contains poly p
      · simp [h] at hval
        subst hval
        exact ⟨hp, poly, hpoly, h⟩
      · simp [h] at hval
    · rintro ⟨hg, poly, hpoly, h⟩
      refine ⟨g, hg, ?_⟩
      rw [List.mem_filterMap]
      exact ⟨poly, hpoly, by simp [h]⟩
  have hmem : ∀ g, g ∈ err_points (must_be_inside points polys) ↔
      g ∈ points ∧ ∀ poly ∈ polys, poly_contains poly g = false := by
    intro g
    unfold must_be_inside
    rw [err_points_if_empty, List.mem_filter]
    simp only [Bool.not_eq_true']
    constructor
    · rintro ⟨hg, hcon⟩
      refine ⟨hg, fun poly hpoly => ?_⟩
      by_cases h : poly_contains poly g
      · exfalso
        have : g ∈ points.flatMap fun p =>
            polys.filterMap fun poly => if poly_contains poly p then some p else none :=
          (hinside g).mpr ⟨hg, poly, hpoly, h⟩
        rw [← List.elem_iff] at this
        rw [List.contains] at hcon
        rw [hcon] at this
        exact Bool.false_ne_true this
      · exact Bool.not_eq_true _ ▸ h
    · rintro ⟨hg, hall⟩
      refine ⟨hg, ?_⟩
      rw [List.contains]
      by_cases h : (points.flatMap fun p =>
          polys.filterMap fun poly => if poly_contains poly p then some p else none).elem g
      · exfalso
        rw [List.elem_iff] at h
        obtain ⟨-, poly, hpoly, hcont⟩ := (hinside g).mp h
        rw [hall poly hpoly] at hcont
        exact Bool.false_ne_true hcont
      · exact Bool.not_eq_true _ ▸ h
  refine ⟨hmem, ?_⟩
  have hval : is_valid (must_be_inside points polys) = true ↔
      err_points (must_be_inside points polys) = [] := by
    unfold must_be_inside
    rw [err_points_if_empty]
    exact is_valid_if_empty_point _
  rw [hval, List.eq_nil_iff_forall_not_mem]
  constructor
  · intro h g hg
    have := h g
    rw [hmem g] at this
    by_contra hnone
    push_neg at hnone
    exact this ⟨hg, fun poly hpoly => by
      have := hnone poly hpoly
      exact Bool.not_eq_true _ ▸ this⟩
  · intro h g
    rw [hmem g]
    rintro ⟨hg, hall⟩
    obtain ⟨poly, hpoly, hcont⟩ := h g hg
    rw [hall poly hpoly] at hcont
    exact Bool.false_ne_true hcont

/-- Claim C8: must_not_have_gaps explodes every exterior and interior ring of
every polygon into segments and reports a segment, as the two-point
linestring of its endpoints, iff fewer than two of the indexed segments are
contained in it; the result is Valid iff every segment contains at least two
indexed segments. -/
theorem claim_C8 : ∀ polys : List Polygon,
    (∀ s : LineString,
      s ∈ err_linestrings (must_not_have_gaps polys) ↔
        ∃ l ∈ explode_linestrings (polys.flatMap fun polygon =>
            polygon.interiors ++ [polygon.exterior]),
          s = [l.start, l.stop]
          ∧ (explode_linestrings (polys.flatMap fun polygon =>
              polygon.interiors ++ [polygon.exterior])).countP
                (fun other => line_contains_line l other) < 2)
    ∧ (is_valid (must_not_have_gaps polys) = true ↔
      ∀ l ∈ explode_linestrings (polys.flatMap fun polygon =>
          polygon.interiors ++ [polygon.exterior]),
        2 ≤ (explode_linestrings (polys.flatMap fun polygon =>
            polygon.interiors ++ [polygon.exterior])).countP
              (fun other => line_contains_line l other)) := by
  intro polys
  have hext : err_linestrings (must_not_have_gaps polys)
      = (explode_linestrings (polys.flatMap fun polygon =>
          polygon.interiors ++ [polygon.exterior])).filterMap fun l =>
        if 2 ≤ (explode_linestrings (polys.flatMap fun polygon =>
            polygon.interiors ++ [polygon.exterior])).countP
              (fun other => line_contains_line l other) then none
        else some [l.start, l.stop] := by
    unfold must_not_have_gaps
    exact err_linestrings_if_empty _
  have hmem : ∀ s : LineString,
      s ∈ err_linestrings (must_not_have_gaps polys) ↔
        ∃ l ∈ explode_linestrings (polys.flatMap fun polygon =>
            polygon.interiors ++ [polygon.exterior]),
          s = [l.start, l.stop]
          ∧ (explode_linestrings (polys.flatMap fun polygon =>
              polygon.interiors ++ [polygon.exterior])).countP
                (fun other => line_contains_line l other) < 2 := by
    intro s
    rw [hext, List.mem_filterMap]
    constructor
    · rintro ⟨l, hl, hval⟩
      by_cases h : 2 ≤ (explode_linestrings (polys.flatMap fun polygon =>
          polygon.interiors ++ [polygon.exterior])).countP
            (fun other => line_contains_line l other)
      · simp [h] at hval
      · simp [h] at hval
        exact ⟨l, hl, hval.symm, by omega⟩
    · rintro ⟨l, hl, hs, hcount⟩
      refine ⟨l, hl, ?_⟩
      have h : ¬ 2 ≤ (explode_linestrings (polys.flatMap fun polygon =>
          polygon.interiors ++ [polygon.exterior])).countP
            (fun other => line_contains_line l other) := by omega
      simp [h, hs]
  refine ⟨hmem, ?_⟩
  have hval : is_valid (must_not_have_gaps polys) = true ↔
      err_linestrings (must_not_have_gaps polys) = [] := by
    unfold must_not_have_gaps
    rw [err_linestrings_if_empty]
    exact is_valid_if_empty_linestring _
  rw [hval, List.eq_nil_iff_forall_not_mem]
  constructor
  · intro h l hl
    by_contra hlt
    exact h [l.start, l.stop] ((hmem _).mpr ⟨l, hl, rfl, by omega⟩)
  · intro h s hs
    obtain ⟨l, hl, -, hcount⟩ := (hmem s).mp hs
    have := h l hl
    omega


/-! ## Counting lemmas for the merge loop (claims C5 and C9) -/

theorem count_some_set_none_le (l : List (Option LineString)) (i : ℕ) :
    count_some (l.set i none) ≤ count_some l := by
  induction l generalizing i with
  | nil => simp [count_some]
  | cons a t ih =>
    cases i with
    | zero =>
      simp only [List.set]
      simp [count_some, List.countP_cons]
    | succ j =>
      simp only [List.set]
      simp only [count_some, List.countP_cons]
      exact Nat.add_le_add_right (ih j) _

theorem count_some_set_none_add (l : List (Option LineString)) (i : ℕ)
    (ls : LineString) (h : l.get? i = some (some ls)) :
    count_some (l.set i none) + 1 = count_some l := by
  induction l generalizing i with
  | nil => simp at h
  | cons a t ih =>
    cases i with
    | zero =>
      simp only [List.get?] at h
      injection h with h
      subst h
      simp [count_some, List.countP_cons]
    | succ j =>
      simp only [List.get?] at h
      simp only [List.set]
      simp only [count_some, List.countP_cons]
      have := ih j h
      simp only [count_some] at this
      omega

theorem count_some_set_some_le (l : List (Option LineString)) (i : ℕ) (x : LineString) :
    count_some (l.set i (some x)) ≤ count_some (l.set i none) + 1 := by
  induction l generalizing i with
  | nil => simp [count_some]
  | cons a t ih =>
    cases i with
    | zero =>
      simp only [List.set]
      simp [count_some, List.countP_cons]
    | succ j =>
      simp only [List.set]
      simp only [count_some, List.countP_cons]
      have h := ih j
      simp only [count_some] at h
      omega

theorem count_some_fold_remove (rm : List ℕ) (s : List (Option LineString)) :
    count_some (rm.foldl (fun acc idx => acc.set idx none) s) ≤ count_some s := by
  induction rm generalizing s with
  | nil => exact le_refl _
  | cons r rm' ih =>
    simp only [List.foldl_cons]
    exact le_trans (ih (s.set r none)) (count_some_set_none_le s r)

theorem process_slot_le (slots : List (Option LineString)) (i : ℕ) :
    count_some (process_slot slots i) ≤ count_some slots := by
  unfold process_slot
  cases hget : slots.get? i with
  | none => exact le_refl _
  | some o =>
    cases o with
    | none => exact le_refl _
    | some ls =>
      dsimp only
      rcases hcomp : compute_linestring (slots.set i none) ls with ⟨res, rm⟩
      cases res with
      | some newLs =>
        dsimp only
        calc count_some (rm.foldl (fun acc idx => acc.set idx none)
              ((slots.set i none).set i (some newLs)))
            ≤ count_some ((slots.set i none).set i (some newLs)) :=
              count_some_fold_remove rm _
          _ = count_some (slots.set i (some newLs)) := by rw [List.set_set]
          _ ≤ count_some (slots.set i none) + 1 := count_some_set_some_le slots i newLs
          _ = count_some slots := count_some_set_none_add slots i ls hget
      | none =>
        dsimp only
        calc count_some ((slots.set i none).set i (some ls))
            = count_some (slots.set i (some ls)) := by rw [List.set_set]
          _ ≤ count_some (slots.set i none) + 1 := count_some_set_some_le slots i ls
          _ = count_some slots := count_some_set_none_add slots i ls hget

theorem fold_process_le (idxs : List ℕ) (s : List (Option LineString)) :
    count_some (idxs.foldl process_slot s) ≤ count_some s := by
  induction idxs generalizing s with
  | nil => exact le_refl _
  | cons r idxs' ih =>
    simp only [List.foldl_cons]
    exact le_trans (ih (process_slot s r)) (process_slot_le s r)

theorem merge_pass_le (slots : List (Option LineString)) :
    count_some (merge_pass slots) ≤ count_some slots :=
  fold_process_le (List.range slots.length) slots

theorem merge_loop_isSome_of (fuel : ℕ) (slots : List (Option LineString))
    (h : count_some slots + 1 ≤ fuel) :
    (merge_loop fuel (count_some slots) slots).isSome = true := by
  induction fuel generalizing slots with
  | zero => omega
  | succ f ih =>
    rw [merge_loop]
    by_cases hc : count_some slots == count_some (merge_pass slots)
    · simp [hc]
    · simp only [hc, Bool.false_eq_true, if_false]
      have hne : count_some slots ≠ count_some (merge_pass slots) := by
        simpa using hc
      have hlt : count_some (merge_pass slots) < count_some slots :=
        Nat.lt_of_le_of_ne (merge_pass_le slots) (fun he => hne he.symm)
      exact ih (merge_pass slots) (by omega)

theorem count_some_map_some (l : List LineString) :
    count_some (l.map some) = l.length := by
  simp [count_some, List.countP_map, Function.comp]

theorem merge_loop_top_isSome (lines : List LineString) :
    (merge_loop (lines.length + 2) 0 (lines.map some)).isSome = true := by
  rw [merge_loop]
  by_cases h0 : (0 == count_some (merge_pass (lines.map some)))
  · simp [h0]
  · simp only [h0, Bool.false_eq_true, if_false]
    have hle : count_some (merge_pass (lines.map some)) ≤ lines.length := by
      calc count_some (merge_pass (lines.map some))
          ≤ count_some (lines.map some) := merge_pass_le _
        _ = lines.length := count_some_map_some lines
    exact merge_loop_isSome_of (lines.length + 1) (merge_pass (lines.map some)) (by omega)

theorem length_filterMap_id (l : List (Option LineString)) :
    (l.filterMap id).length = count_some l := by
  induction l with
  | nil => simp [count_some]
  | cons a t ih =>
    cases a with
    | none => simp [List.filterMap_cons, count_some, List.countP_cons, ih]
    | some x =>
      simp only [List.filterMap_cons, id, List.length_cons, count_some, List.countP_cons]
      simp only [count_some] at ih
      simp [ih]

theorem merge_loop_length (fuel : ℕ) :
    ∀ (prev : ℕ) (slots : List (Option LineString)) (out : List LineString),
    merge_loop fuel prev slots = some out → out.length ≤ count_some slots := by
  induction fuel with
  | zero => intro prev slots out h; simp [merge_loop] at h
  | succ f ih =>
    intro prev slots out h
    rw [merge_loop] at h
    by_cases hc : prev == count_some (merge_pass slots)
    · simp only [hc, if_true] at h
      injection h with h
      subst h
      rw [length_filterMap_id]
      exact merge_pass_le slots
    · simp only [hc, Bool.false_eq_true, if_false] at h
      exact le_trans (ih _ _ _ h) (merge_pass_le slots)

theorem merge_len_le (xs : List LineString) :
    (merge_linestrings xs).length ≤ xs.length := by
  unfold merge_linestrings
  cases h : merge_loop (xs.length + 2) 0 (xs.map some) with
  | none => simp [h]
  | some out =>
    simp only [h, Option.getD_some]
    calc out.length ≤ count_some (xs.map some) := merge_loop_length _ _ _ _ h
      _ = xs.length := count_some_map_some xs

/-- Claim C9: merge_linestrings terminates on every finite input. Within a
pass the count of present slots never increases (per slot step and per full
pass), and the outer loop, which exits as soon as the present-slot count of a
pass equals the previous pass's count, reaches that fixed point within
length + 2 passes: the fuelled embedding of the unbounded source loop always
returns. -/
theorem claim_C9 :
    (∀ (slots : List (Option LineString)) (i : ℕ),
      count_some (process_slot slots i) ≤ count_some slots)
    ∧ (∀ slots : List (Option LineString),
      count_some (merge_pass slots) ≤ count_some slots)
    ∧ ∀ lines : List LineString,
      (merge_loop (lines.length + 2) 0 (lines.map some)).isSome = true :=
  ⟨process_slot_le, merge_pass_le, merge_loop_top_isSome⟩

/-- Claim C5, counterexample: on idem_cex_input (a ring whose final-pass
rotation the fixed-point test cannot see), merge_linestrings is not
idempotent as a set of linestrings: the segment (2,0)-(3,-1) survives the
first call but a second call merges it into the rotated ring. -/
theorem claim_C5_cex :
    ([⟨2, 0⟩, ⟨3, -1⟩] : LineString) ∈ merge_linestrings idem_cex_input
    ∧ ([⟨2, 0⟩, ⟨3, -1⟩] : LineString) ∉
        merge_linestrings (merge_linestrings idem_cex_input) := by
  decide

/-- Claim C5, amended: merge_linestrings need not be idempotent as a set (a
final-pass ring rotation can enable a merge that only a repeated call
performs, see claim_C5_cex); what holds is that a repeated application can
only merge further, never split: it returns at most as many linestrings as
the first. -/
theorem claim_C5 : ∀ xs : List LineString,
    (merge_linestrings (merge_linestrings xs)).length ≤ (merge_linestrings xs).length :=
  fun xs => merge_len_le (merge_linestrings xs)


/-! ## The SweepPoint order and the sorted dedup_with_count (claim C1) -/

theorem cle_iff (a b : Coord) :
    cle a b ↔ (a.x < b.x ∨ (a.x = b.x ∧ a.y ≤ b.y)) := by
  unfold cle coord_le
  simp [Bool.or_eq_true, Bool.and_eq_true, decide_eq_true_eq, beq_iff_eq]

theorem cle_antisymm {a b : Coord} (h1 : cle a b) (h2 : cle b a) : a = b := by
  rw [cle_iff] at h1 h2
  obtain ⟨ax, ay⟩ := a
  obtain ⟨bx, by'⟩ := b
  simp only at h1 h2
  simp only [Coord.mk.injEq]
  omega

theorem count_dropWhile_beq_ne (rest : List Coord) (a p : Coord) (h : p ≠ a) :
    (rest.dropWhile fun c => c == a).count p = rest.count p := by
  have h0 : (rest.takeWhile fun c => c == a).count p = 0 := by
    rw [List.count_eq_zero]
    intro hmem
    have himp := @List.mem_takeWhile_imp Coord (fun c => c == a) rest p hmem
    exact h (beq_iff_eq.mp himp)
  have hsplit := List.takeWhile_append_dropWhile (fun c => c == a) rest
  have hc := congrArg (List.count p) hsplit
  rw [List.count_append, h0] at hc
  simpa using hc

theorem dwc_cons_sorted : ∀ (rest : List Coord) (a : Coord),
    (a :: rest).Sorted cle →
    dedup_with_count (a :: rest)
      = (1 + rest.count a, a) :: dedup_with_count (rest.dropWhile fun c => c == a) := by
  intro rest
  induction rest with
  | nil =>
    intro a _
    simp [dedup_with_count]
  | cons b rest' ih =>
    intro a h
    have hs' : (b :: rest').Sorted cle := h.of_cons
    have hIH := ih b hs'
    by_cases hab : a = b
    · subst hab
      rw [dedup_with_count, hIH]
      have harith : 1 + rest'.count a + 1 = 1 + (rest'.count a + 1) := by omega
      simp [List.count_cons_self, List.dropWhile_cons, harith]
    · rw [dedup_with_count, hIH]
      simp only [if_neg hab]
      rw [← hIH]
      have hba : (b == a) = false := by
        rw [beq_eq_false_iff_ne]
        exact fun hh => hab hh.symm
      rw [List.dropWhile_cons, hba]
      simp only [Bool.false_eq_true, if_false]
      have hnotmem : a ∉ b :: rest' := by
        intro hmem
        rcases List.mem_cons.mp hmem with h1 | h1
        · exact hab h1
        · have hba' : cle b a := (List.sorted_cons.mp hs').1 a h1
          have hab' : cle a b := (List.sorted_cons.mp h).1 b (List.mem_cons_self b rest')
          exact hab (cle_antisymm hab' hba')
      have hcount : (b :: rest').count a = 0 := List.count_eq_zero.mpr hnotmem
      rw [hcount]

theorem mem_dwc_filter_iff : ∀ (n : ℕ) (l : List Coord), l.length ≤ n → l.Sorted cle →
    ∀ p : Coord,
    (p ∈ (dedup_with_count l).filterMap fun sc => if 1 < sc.1 then some sc.2 else none)
      ↔ 2 ≤ l.count p := by
  intro n
  induction n with
  | zero =>
    intro l hl _ p
    have hnil : l = [] := List.length_eq_zero.mp (Nat.le_antisymm hl (Nat.zero_le _))
    subst hnil
    simp [dedup_with_count]
  | succ m ih =>
    intro l hl hs p
    cases l with
    | nil => simp [dedup_with_count]
    | cons a rest =>
      rw [dwc_cons_sorted rest a hs, List.filterMap_cons]
      have hlen : (rest.dropWhile fun c => c == a).length ≤ m := by
        have h1 : (rest.dropWhile fun c => c == a).length ≤ rest.length :=
          (List.dropWhile_sublist _).length_le
        simp only [List.length_cons] at hl
        omega
      have hsort : (rest.dropWhile fun c => c == a).Sorted cle :=
        List.Pairwise.sublist (List.dropWhile_sublist _) hs.of_cons
      have hrec := ih (rest.dropWhile fun c => c == a) hlen hsort p
      by_cases hpa : p = a
      · subst hpa
        have hdrop0 : (rest.dropWhile fun c => c == p).count p = 0 := by
          rw [List.count_eq_zero]
          intro hmem
          have hp1 : p ∈ rest := (List.dropWhile_sublist _).mem hmem
          rcases hd : rest.dropWhile fun c => c == p with _ | ⟨d, t⟩
          · rw [hd] at hmem
            simp at hmem
          · have hdne : (d == p) = false := by
              have := List.head?_dropWhile_not (fun c => c == p) rest
              rw [hd] at this
              simpa using this
            rw [hd] at hmem
            rcases List.mem_cons.mp hmem with h1 | h1
            · rw [h1] at hdne
              simp at hdne
            · have hdmem : d ∈ rest :=
                (List.dropWhile_sublist (fun c => c == p)).mem (hd ▸ List.mem_cons_self d t)
              have h2 : cle p d := (List.sorted_cons.mp hs).1 d hdmem
              have htsort : (d :: t).Sorted cle := hd ▸ hsort
              have h3 : cle d p := (List.sorted_cons.mp htsort).1 p h1
              have : d = p := cle_antisymm h3 h2
              rw [this] at hdne
              simp at hdne
        rw [List.count_cons_self]
        by_cases hpos : 0 < rest.count p
        · have hif : (1:ℕ) < 1 + rest.count p := by omega
          rw [if_pos hif]
          rw [List.mem_cons]
          rw [hrec, hdrop0]
          constructor
          · intro _
            omega
          · intro _
            exact Or.inl rfl
        · have hif : ¬ (1:ℕ) < 1 + rest.count p := by omega
          rw [if_neg hif]
          rw [hrec, hdrop0]
          constructor
          · intro hcon
            omega
          · intro hcon
            omega
      · have hcount : (a :: rest).count p = rest.count p :=
          List.count_cons_of_ne hpa rest
        have hdrop : (rest.dropWhile fun c => c == a).count p = rest.count p :=
          count_dropWhile_beq_ne rest a p hpa
        by_cases hif : (1:ℕ) < 1 + rest.count a
        · rw [if_pos hif, List.mem_cons, hrec, hdrop, hcount]
          constructor
          · rintro (h1 | h1)
            · exact absurd h1 hpa
            · exact h1
          · exact fun h1 => Or.inr h1
        · rw [if_neg hif, hrec, hdrop, hcount]

/-! ## Membership in the BTreeSet model -/

theorem mem_btree_insert (c p : Coord) : ∀ l : List Coord,
    p ∈ btree_insert c l ↔ p = c ∨ p ∈ l := by
  intro l
  induction l with
  | nil => simp [btree_insert]
  | cons d t ih =>
    rw [btree_insert]
    by_cases h1 : c = d
    · subst h1
      rw [if_pos rfl]
      simp only [List.mem_cons]
      try tauto
    · rw [if_neg h1]
      by_cases h2 : coord_le c d
      · rw [if_pos h2]
        simp only [List.mem_cons]
        try tauto
      · rw [if_neg h2]
        simp only [List.mem_cons, ih]
        try tauto

theorem mem_btree_foldl : ∀ (l : List Coord) (acc : List Coord) (p : Coord),
    p ∈ l.foldl (fun acc c => btree_insert c acc) acc ↔ p ∈ l ∨ p ∈ acc := by
  intro l
  induction l with
  | nil => simp
  | cons c t ih =>
    intro acc p
    simp only [List.foldl_cons]
    rw [ih, mem_btree_insert]
    simp only [List.mem_cons]
    tauto

theorem mem_btree_of_list (l : List Coord) (p : Coord) :
    p ∈ btree_of_list l ↔ p ∈ l := by
  unfold btree_of_list
  rw [mem_btree_foldl]
  simp

/-! ## Bucket extraction for must_not_intersect -/

theorem err_points_buckets (ps : List Coord) (ls : List LineString) :
    err_points (
      if ((if ps.isEmpty then ([] : List TopologyError) else [.point ps])
          ++ (if ls.isEmpty then ([] : List TopologyError) else [.linestring ls])).isEmpty
      then TopologyResult.valid
      else .errors ((if ps.isEmpty then ([] : List TopologyError) else [.point ps])
          ++ (if ls.isEmpty then ([] : List TopologyError) else [.linestring ls])))
      = ps := by
  by_cases h1 : ps.isEmpty <;> by_cases h2 : ls.isEmpty
  · rw [List.isEmpty_iff] at h1
    simp [h1, h2, err_points]
  · rw [List.isEmpty_iff] at h1
    simp [h1, h2, err_points]
  · rw [List.isEmpty_iff] at h2
    simp [h1, h2, err_points]
  · simp [h1, h2, err_points]

theorem err_linestrings_buckets (ps : List Coord) (ls : List LineString) :
    err_linestrings (
      if ((if ps.isEmpty then ([] : List TopologyError) else [.point ps])
          ++ (if ls.isEmpty then ([] : List TopologyError) else [.linestring ls])).isEmpty
      then TopologyResult.valid
      else .errors ((if ps.isEmpty then ([] : List TopologyError) else [.point ps])
          ++ (if ls.isEmpty then ([] : List TopologyError) else [.linestring ls])))
      = ls := by
  by_cases h1 : ps.isEmpty <;> by_cases h2 : ls.isEmpty
  · rw [List.isEmpty_iff] at h2
    simp [h1, h2, err_linestrings]
  · rw [List.isEmpty_iff] at h1
    simp [h1, h2, err_linestrings]
  · rw [List.isEmpty_iff] at h2
    simp [h1, h2, err_linestrings]
  · simp [h1, h2, err_linestrings]

/-- Claim C1: for every list of linestrings (each with at least two
coordinates, as the data model requires and the source's slicing assumes, and
whose proper crossings are lattice points, so that the integer embedding
carries the program's computed crossing coordinates exactly),
must_not_intersect reports as Point errors exactly the proper intersection
points of the exploded segments together with those improper points that
occur among the inner (non-endpoint) linestring coordinates with multiplicity
at least two, and as LineString errors exactly the collinear-overlap segments
returned by the intersection kernel, each promoted to a two-vertex
linestring. -/
theorem claim_C1 : ∀ lss : List LineString, (∀ ls ∈ lss, 2 ≤ ls.length) →
    crossings_integral (explode_linestrings lss) = true →
    (∀ p : Coord,
      p ∈ err_points (must_not_intersect lss) ↔
        p ∈ (intersections (explode_linestrings lss)).2.1
          ∨ (p ∈ (intersections (explode_linestrings lss)).2.2
              ∧ 2 ≤ (linestring_inner_points lss).count p))
    ∧ err_linestrings (must_not_intersect lss)
        = (intersections (explode_linestrings lss)).1.map fun l => [l.start, l.stop] := by
  intro lss hlen hcross
  constructor
  · intro p
    simp only [must_not_intersect]
    rw [err_points_buckets]
    rw [mem_btree_foldl, mem_btree_of_list, List.mem_filter]
    have hsub : ((((dedup_with_count
          (List.insertionSort cle (linestring_inner_points lss))).filterMap fun sc =>
            if 1 < sc.1 then some sc.2 else none).contains p) = true)
        ↔ 2 ≤ (linestring_inner_points lss).count p := by
      rw [List.contains, List.elem_iff]
      rw [mem_dwc_filter_iff (List.insertionSort cle (linestring_inner_points lss)).length
        _ (le_refl _) (List.sorted_insertionSort cle (linestring_inner_points lss)) p]
      rw [(List.perm_insertionSort cle (linestring_inner_points lss)).count_eq p]
    rw [hsub]
  · simp only [must_not_intersect]
    rw [err_linestrings_buckets]

/-- Claim C1, witness: the theorem instantiated at two properly crossing
segments and the crossing point (1,1), both hypotheses (coordinate counts,
integrality of the crossing) discharged by computation. -/
theorem claim_C1_witness :
    ((⟨1, 1⟩ : Coord) ∈ err_points (must_not_intersect crossing_demo) ↔
      (⟨1, 1⟩ : Coord) ∈ (intersections (explode_linestrings crossing_demo)).2.1
        ∨ ((⟨1, 1⟩ : Coord) ∈ (intersections (explode_linestrings crossing_demo)).2.2
            ∧ 2 ≤ (linestring_inner_points crossing_demo).count ⟨1, 1⟩))
    ∧ err_linestrings (must_not_intersect crossing_demo)
        = (intersections (explode_linestrings crossing_demo)).1.map fun l =>
            [l.start, l.stop] := by
  have h := claim_C1 crossing_demo (by decide) (by decide)
  exact ⟨h.1 ⟨1, 1⟩, h.2⟩

/-- Claim C2: must_not_have_dangles reports exactly the Point errors obtained
by removing from the linestring endpoints every point contained in the
improper-intersection set the sweep kernel returns on the exploded segments,
and is Valid iff that difference is empty; and on the three-segment scenario
S1 (coordinates scaled by 10^6: the f64 program decides the same predicates
identically on the unscaled decimals) the reported points are exactly
(-21.95156, 64.14460) and (-21.951445, 64.145508), in that order and no
others. -/
theorem claim_C2 :
    (∀ lss : List LineString, (∀ ls ∈ lss, 2 ≤ ls.length) →
      ((∀ p : Coord,
        p ∈ err_points (must_not_have_dangles lss) ↔
          p ∈ linestring_endpoints lss
            ∧ p ∉ (intersections (explode_linestrings lss)).2.2)
      ∧ (is_valid (must_not_have_dangles lss) = true ↔
          ∀ p ∈ linestring_endpoints lss,
            p ∈ (intersections (explode_linestrings lss)).2.2)))
    ∧ err_points (must_not_have_dangles dangle_scenario)
        = [⟨-21951560, 64144600⟩, ⟨-21951445, 64145508⟩] := by
  constructor
  · intro lss hlen
    have hext : err_points (must_not_have_dangles lss)
        = (linestring_endpoints lss).filter fun p =>
            !((intersections (explode_linestrings lss)).2.2.contains p) := by
      simp only [must_not_have_dangles]
      exact err_points_if_empty _
    have hmem : ∀ p : Coord,
        p ∈ err_points (must_not_have_dangles lss) ↔
          p ∈ linestring_endpoints lss
            ∧ p ∉ (intersections (explode_linestrings lss)).2.2 := by
      intro p
      rw [hext, List.mem_filter]
      constructor
      · rintro ⟨h1, h2⟩
        refine ⟨h1, fun hmem => ?_⟩
        rw [Bool.not_eq_true', ← Bool.not_eq_true] at h2
        exact h2 (List.elem_iff.mpr hmem)
      · rintro ⟨h1, h2⟩
        refine ⟨h1, ?_⟩
        rw [Bool.not_eq_true']
        rw [← Bool.not_eq_true]
        intro hcon
        exact h2 (List.elem_iff.mp hcon)
    refine ⟨hmem, ?_⟩
    have hval : is_valid (must_not_have_dangles lss) = true ↔
        err_points (must_not_have_dangles lss) = [] := by
      simp only [must_not_have_dangles]
      rw [err_points_if_empty]
      exact is_valid_if_empty_point _
    rw [hval, List.eq_nil_iff_forall_not_mem]
    constructor
    · intro h p hp
      have h1 := h p
      rw [hmem p] at h1
      by_contra hcon
      exact h1 ⟨hp, hcon⟩
    · intro h p
      rw [hmem p]
      rintro ⟨h1, h2⟩
      exact h2 (h p h1)
  · decide

end TopologyChecker
